import Mathlib

/-!
Verification of the word-selection / spaced-repetition core of a
vocabulary-learning application (single-file React/TypeScript program).

The development shallowly embeds the algorithmic parts of the program:
the Fisher-Yates shuffle, the selection engine (`selectWords`), the
word-learned event (`onWordLearned`) with its daily counters and streak
tracker, the XP level curve (`calculateXPLevel` / `addXp`), custom word
management (`onSaveCustomWord`), and quiz distractor generation
(`generateMultipleChoiceOptions`).

Conventions of the embedding:
* JavaScript nullable strings become `Option String`; JS truthiness of a
  nullable string (`null`, `undefined` and `""` are falsy) is `strTruthy`.
* `Math.random()` draws are abstracted by a caller-supplied function
  `rand : Nat → Nat`; the index drawn at step `i` is `rand i % (i+1)`,
  which ranges over exactly the values `Math.floor(Math.random()*(i+1))`
  can take.
* `new Date(s).getTime()` is abstracted by a parameter
  `getTime : String → Int` (date parsing is host functionality).
* The in-place stable `Array.prototype.sort` is modelled by `mergeSort`
  (stable) on an immutable list.
* Calendar values (`getTodayDateString()` results, ISO timestamps) are
  passed in as explicit `String` parameters.
-/

namespace VocabApp

/-- Truthiness of a JS nullable string: `null`/`undefined` and `""` are falsy. -/
def strTruthy : Option String → Bool
  | none => false
  | some s => !(s == "")

/-- Characters before the first `'T'`. -/
def charsBeforeT : List Char → List Char
  | [] => []
  | c :: cs => if c = 'T' then [] else c :: charsBeforeT cs

/-- The calendar-date part of an ISO timestamp: `s.split('T')[0]`, the
prefix of `s` before the first `'T'` (all of `s` when no `'T'` occurs). -/
def dayPart (s : String) : String := String.mk (charsBeforeT s.data)

/-- JS `s.toLowerCase()`, character-wise. -/
def jsToLower (s : String) : String := String.mk (s.data.map Char.toLower)

/-- JS `s.trim()`: strip whitespace from both ends. -/
def jsTrim (s : String) : String :=
  String.mk (((s.data.dropWhile Char.isWhitespace).reverse.dropWhile
    Char.isWhitespace).reverse)

/-- A catalog entry (interface `Word` in the source). -/
structure Word where
  id : String
  term : String
  pronunciation : String
  partOfSpeech : String
  meaning : String
  exampleSentence : String
  exampleSentenceMeaning : String
  gradeLevel : String
  isCustom : Bool
  unit : Option String
deriving DecidableEq, Repr

/-- Per-word learning state (interface `WordStat` in the source). -/
structure WordStat where
  id : String
  isMastered : Bool
  lastReviewed : Option String
  quizIncorrectCount : Nat
deriving DecidableEq, Repr

/-- `getDefaultWordStat` from the source. -/
def getDefaultWordStat (wordId : String) : WordStat :=
  { id := wordId, isMastered := false, lastReviewed := none, quizIncorrectCount := 0 }

/-- `wordStats[wordId] || getDefaultWordStat(wordId)`. -/
def getWordStat (stats : String → Option WordStat) (wordId : String) : WordStat :=
  (stats wordId).getD (getDefaultWordStat wordId)

/-- One step of the Fisher-Yates loop body:
`[newArray[i], newArray[j]] = [newArray[j], newArray[i]]`. -/
def swapList {α : Type} (l : List α) (i j : Nat) : List α :=
  match l[i]?, l[j]? with
  | some a, some b => (l.set i b).set j a
  | _, _ => l

/-- The Fisher-Yates loop of `shuffleArray`, running the swap at indices
`i, i-1, …, 1`; the swap partner at index `i` is `rand i % (i+1)`,
modelling `Math.floor(Math.random() * (i + 1))`. -/
def fisherYatesAux {α : Type} (rand : Nat → Nat) : Nat → List α → List α
  | 0, l => l
  | i+1, l => fisherYatesAux rand i (swapList l (i+1) (rand (i+1) % (i+2)))

/-- `shuffleArray` from the source: copy the array, then run the
Fisher-Yates loop from index `length - 1` down to `1`. -/
def shuffleArray {α : Type} (rand : Nat → Nat) (l : List α) : List α :=
  fisherYatesAux rand (l.length - 1) l

/-- `statX.lastReviewed ? new Date(statX.lastReviewed).getTime() : 0`. -/
def reviewTime (getTime : String → Int) (lr : Option String) : Int :=
  if strTruthy lr then getTime (lr.getD "") else 0

/-- The comparator passed to `eligibleWords.sort` inside `selectWords`. -/
def selectCmp (getTime : String → Int) (stats : String → Option WordStat)
    (a b : Word) : Int :=
  let statA := getWordStat stats a.id
  let statB := getWordStat stats b.id
  if statB.quizIncorrectCount ≠ statA.quizIncorrectCount then
    (statB.quizIncorrectCount : Int) - (statA.quizIncorrectCount : Int)
  else
    let dateA := reviewTime getTime statA.lastReviewed
    let dateB := reviewTime getTime statB.lastReviewed
    if dateA ≠ dateB then dateA - dateB
    else if a.isCustom && !b.isCustom then -1
    else if !a.isCustom && b.isCustom then 1
    else 0

/-- `selectWords(count, forQuickReview)` from the learning screen:
filter the catalog to the requested grade and unmastered words, apply the
mode-specific `lastReviewed` filter, sort by the priority comparator,
shuffle, and truncate to `count`. -/
def selectWords (rand : Nat → Nat) (getTime : String → Int)
    (words : List Word) (stats : String → Option WordStat)
    (grade : String) (today : String) (count : Nat)
    (forQuickReview : Bool) : List Word :=
  let base := words.filter fun w =>
    w.gradeLevel == grade && !(getWordStat stats w.id).isMastered
  let eligibleWords :=
    if forQuickReview then
      base.filter fun w =>
        let stat := getWordStat stats w.id
        strTruthy stat.lastReviewed && dayPart (stat.lastReviewed.getD "") != today
    else
      base.filter fun w =>
        let stat := getWordStat stats w.id
        !(strTruthy stat.lastReviewed) || dayPart (stat.lastReviewed.getD "") != today
  let sorted := eligibleWords.mergeSort fun a b => selectCmp getTime stats a b ≤ 0
  (shuffleArray rand sorted).take count

/-- The `while` loop of `calculateXPLevel`: starting from `cum`ulative XP
spent and the current `level`, keep levelling up while
`xp >= cumulativeXpForLevel + xpForNextLevel` where
`xpForNextLevel = level * 100`; returns the final `(level, cumulativeXp)`. -/
def calcXPAux (xp cum level : Nat) : Nat × Nat :=
  if cum + level * 100 ≤ xp then calcXPAux xp (cum + level * 100) (level + 1)
  else (level, cum)
termination_by xp + 1 - level
decreasing_by
  omega

/-- `calculateXPLevel(xp)` from the source, returning
`(level, currentLevelXp, xpForNextLevel)`. -/
def calculateXPLevel (xp : Nat) : Nat × Nat × Nat :=
  let lc := calcXPAux xp 0 1
  (lc.1, xp - lc.2, lc.1 * 100)

/-- The streak record held in `learningStreak`. -/
structure Streak where
  currentStreak : Nat
  bestStreak : Nat
  lastLearnedDate : String
deriving DecidableEq, Repr

/-- The app-level mutable state the core events act on: the catalog, the
word stats, the daily and overall counters, the streak and the XP state. -/
structure AppState where
  allWords : List Word
  wordStats : String → Option WordStat
  learnedWordsTodayCount : Nat
  totalWordsLearnedOverall : Nat
  streak : Streak
  xp : Nat
  level : Nat

/-- `addXp(amount)`: add to the XP total and recompute the stored level
from the level curve. -/
def addXp (s : AppState) (amount : Nat) : AppState :=
  let newXp := s.xp + amount
  { s with xp := newXp, level := (calculateXPLevel newXp).1 }

/-- The stats update `{...prevStats, [wordId]: {...}}` performed by
`updateWordStat`. -/
def setStat (stats : String → Option WordStat) (wordId : String)
    (st : WordStat) : String → Option WordStat :=
  fun id => if id = wordId then some st else stats id

/-- `updateWordStat(wordId, { lastReviewed: now })`: merge the patch into
the existing stat (or the default stat) and re-pin the id. -/
def updateWordStatLastReviewed (stats : String → Option WordStat)
    (wordId now : String) : String → Option WordStat :=
  setStat stats wordId
    { (stats wordId).getD (getDefaultWordStat wordId) with
      lastReviewed := some now, id := wordId }

/-- The streak update inside `onWordLearned`: keep the streak if already
learned today, increment it if the last learning day was yesterday,
otherwise restart at 1; `bestStreak` takes the max. -/
def updateStreakOnLearn (today yesterday : String) (st : Streak) : Streak :=
  let newCurrentStreak :=
    if st.lastLearnedDate = today then st.currentStreak
    else if st.lastLearnedDate = yesterday then st.currentStreak + 1
    else 1
  { currentStreak := newCurrentStreak,
    bestStreak := max st.bestStreak newCurrentStreak,
    lastLearnedDate := today }

/-- `onWordLearned(wordId, isQuickReview)` from the source. `today` is
`getTodayDateString()`, `yesterday` the computed previous calendar day,
and `now` the ISO timestamp `new Date().toISOString()`. -/
def onWordLearned (today yesterday now : String) (s : AppState)
    (wordId : String) (isQuickReview : Bool) : AppState :=
  let stat := getWordStat s.wordStats wordId
  let wasLearnedTodayForTheFirstTime :=
    !(strTruthy stat.lastReviewed) || dayPart (stat.lastReviewed.getD "") != today
  let s1 := { s with wordStats := updateWordStatLastReviewed s.wordStats wordId now }
  if wasLearnedTodayForTheFirstTime && !isQuickReview then
    let s2 := addXp { s1 with
      learnedWordsTodayCount := s1.learnedWordsTodayCount + 1,
      totalWordsLearnedOverall := s1.totalWordsLearnedOverall + 1 } 5
    { s2 with streak := updateStreakOnLearn today yesterday s2.streak }
  else if isQuickReview then
    addXp s1 1
  else s1

/-- The load-time streak correction in the mount effect: if the stored
streak was last updated neither today nor yesterday, reset
`currentStreak` to 0; `bestStreak` and `lastLearnedDate` are kept. -/
def loadStreakCorrection (today yesterday : String) (st : Streak) : Streak :=
  if st.lastLearnedDate ≠ today then
    if st.lastLearnedDate ≠ yesterday then { st with currentStreak := 0 }
    else st
  else st

/-- One event of the progress tracker: either an `onWordLearned` call or
the load-time streak correction. -/
inductive ProgressStep where
  | learn (today yesterday now wordId : String) (isQuickReview : Bool)
  | loadCorrection (today yesterday : String)

def applyProgressStep (s : AppState) : ProgressStep → AppState
  | .learn today yesterday now wordId isQR =>
      onWordLearned today yesterday now s wordId isQR
  | .loadCorrection today yesterday =>
      { s with streak := loadStreakCorrection today yesterday s.streak }

def applyProgressSteps (s : AppState) (steps : List ProgressStep) : AppState :=
  steps.foldl applyProgressStep s

/-- The `Partial<Word>` record passed to `onSaveCustomWord`. -/
structure WordData where
  id : Option String := none
  term : Option String := none
  pronunciation : Option String := none
  partOfSpeech : Option String := none
  meaning : Option String := none
  exampleSentence : Option String := none
  exampleSentenceMeaning : Option String := none
  gradeLevel : Option String := none
deriving DecidableEq, Repr

/-- Truthiness of `wordData.field?.trim()`: present with nonempty trim. -/
def optTruthyTrim : Option String → Bool
  | none => false
  | some s => !(jsTrim s == "")

/-- Truthiness of `wordData.id`. -/
def wordDataIdTruthy (d : WordData) : Bool :=
  match d.id with
  | none => false
  | some s => !(s == "")

/-- JS `a || b` on strings. -/
def jsOrStr (a b : String) : String := if a = "" then b else a

/-- The merged word `{...allWords[wordIndex], ...wordData, term: termToSave,
unit: ...}` built on the edit path. -/
def mergeWordData (old : Word) (d : WordData) (termToSave : String)
    (unitNumber : Option Nat) : Word :=
  { id := d.id.getD old.id,
    term := termToSave,
    pronunciation := d.pronunciation.getD old.pronunciation,
    partOfSpeech := d.partOfSpeech.getD old.partOfSpeech,
    meaning := d.meaning.getD old.meaning,
    exampleSentence := d.exampleSentence.getD old.exampleSentence,
    exampleSentenceMeaning := d.exampleSentenceMeaning.getD old.exampleSentenceMeaning,
    gradeLevel := d.gradeLevel.getD old.gradeLevel,
    isCustom := old.isCustom,
    unit := match unitNumber with
            | some n => some (toString n)
            | none => old.unit }

/-- The create branch of `onSaveCustomWord`: reject if any existing word
has a case-insensitively matching term, otherwise append a fresh custom
word, lazily initialize its stat, and award 2 XP. `freshId` stands for
`Date.now().toString()` and `defaultGrade` for `userSettings?.grade`. -/
def saveNewWord (freshId defaultGrade : String) (s : AppState)
    (wordData : WordData) (gradeLevelForNew : Option String)
    (unitNumber : Option Nat) (termToSave : String) : Bool × AppState :=
  match s.allWords.find? (fun w => jsToLower w.term == jsToLower termToSave) with
  | some _ => (false, s)
  | none =>
    let newWord : Word :=
      { id := freshId,
        term := termToSave,
        pronunciation := wordData.pronunciation.getD "",
        partOfSpeech := wordData.partOfSpeech.getD "",
        meaning := wordData.meaning.getD "",
        exampleSentence := wordData.exampleSentence.getD "",
        exampleSentenceMeaning := wordData.exampleSentenceMeaning.getD "",
        gradeLevel := jsOrStr (gradeLevelForNew.getD defaultGrade)
                        (jsOrStr defaultGrade "middle1"),
        isCustom := true,
        unit := unitNumber.map toString }
    let s1 := { s with allWords := s.allWords ++ [newWord] }
    let s2 :=
      if (s1.wordStats newWord.id).isNone then
        { s1 with wordStats := setStat s1.wordStats newWord.id
                    (getDefaultWordStat newWord.id) }
      else s1
    (true, addXp s2 2)

/-- `onSaveCustomWord(wordData, gradeLevelForNew, unitNumber)` from the
source: validate the required fields, then either edit the matching
custom word in place (when `wordData.id` is truthy) or run the create
branch. Returns the boolean result together with the new state. -/
def onSaveCustomWord (freshId defaultGrade : String) (s : AppState)
    (wordData : WordData) (gradeLevelForNew : Option String)
    (unitNumber : Option Nat) : Bool × AppState :=
  if !(optTruthyTrim wordData.term) || !(optTruthyTrim wordData.meaning)
      || !(optTruthyTrim wordData.partOfSpeech)
      || !(optTruthyTrim wordData.exampleSentence) then
    (false, s)
  else
    let termToSave := jsTrim (wordData.term.getD "")
    if wordDataIdTruthy wordData then
      let wid := wordData.id.getD ""
      match s.allWords.findIdx? (fun w => w.id == wid && w.isCustom) with
      | some wordIndex =>
        match s.allWords[wordIndex]? with
        | some old =>
          (true, { s with allWords :=
            s.allWords.set wordIndex (mergeWordData old wordData termToSave unitNumber) })
        | none => (false, s)
      | none => (false, s)
    else
      saveNewWord freshId defaultGrade s wordData gradeLevelForNew unitNumber termToSave

/-- First-occurrence deduplication, as `Array.from(new Set(pool))`: keep
each string the first time it appears, in order. -/
def jsDedup : List String → List String
  | [] => []
  | x :: xs => x :: jsDedup (xs.filter fun y => y != x)
termination_by l => l.length
decreasing_by
  exact Nat.lt_succ_of_le (List.length_filter_le _ xs)

/-- The first `while` loop of `generateMultipleChoiceOptions`: while fewer
than 3 incorrect options were collected and enough grade words remain,
pick the head of a fresh shuffle of the still-unused same-grade meanings
and push it, breaking when the pick is falsy or already collected.
`rands n` is the random source for the shuffle of iteration `n`; the fuel
is an upper bound on the iteration count (each non-breaking iteration
grows `opts`, so 4 units are never exhausted). -/
def fallbackLoop (rands : Nat → Nat → Nat) (gradeWords : List Word)
    (correctWord : Word) : Nat → Nat → List String → List String
  | 0, _, opts => opts
  | fuel+1, iter, opts =>
    if opts.length < 3 && gradeWords.length > opts.length + 1 then
      let pool := gradeWords.filter fun w =>
        w.id != correctWord.id && !(opts.contains w.meaning)
          && w.meaning != correctWord.meaning
      match (shuffleArray (rands iter) pool).head? with
      | some w =>
        if w.meaning != "" && !(opts.contains w.meaning) then
          fallbackLoop rands gradeWords correctWord fuel (iter+1) (opts ++ [w.meaning])
        else opts
      | none => opts
    else opts

/-- The fixed placeholder list of `generateMultipleChoiceOptions`. -/
def quizPlaceholders : List String := ["관련 없음", "다른 뜻", "오답 예시"]

/-- The second `while` loop of `generateMultipleChoiceOptions`: walk the
placeholder list in order while fewer than 3 incorrect options exist,
pushing each placeholder that is not yet collected and differs from the
correct meaning. -/
def placeholderLoop (correctMeaning : String) :
    List String → List String → List String
  | [], opts => opts
  | p :: rest, opts =>
    if opts.length < 3 then
      if !(opts.contains p) && p != correctMeaning then
        placeholderLoop correctMeaning rest (opts ++ [p])
      else
        placeholderLoop correctMeaning rest opts
    else opts

/-- `generateMultipleChoiceOptions(correctWord)` from the quiz screen:
shuffle the deduplicated same-grade incorrect meanings, keep up to 3, top
up via the fallback loop and then the placeholder loop, and return the
shuffle of the correct meaning together with at most 3 incorrect options.
`rand₁` drives the pool shuffle, `rands` the fallback-loop shuffles and
`rand₂` the final option shuffle. -/
def generateMultipleChoiceOptions (rand₁ rand₂ : Nat → Nat)
    (rands : Nat → Nat → Nat) (words : List Word) (grade : String)
    (correctWord : Word) : List String :=
  let gradeWords := words.filter fun w => w.gradeLevel == grade
  let incorrectMeaningPool := shuffleArray rand₁
    (((gradeWords.filter fun w => w.id != correctWord.id).map Word.meaning).filter
      fun m => m != correctWord.meaning)
  let uniqueIncorrectOptions := (jsDedup incorrectMeaningPool).take 3
  let afterFallback := fallbackLoop rands gradeWords correctWord 4 0 uniqueIncorrectOptions
  let afterPlaceholders := placeholderLoop correctWord.meaning quizPlaceholders afterFallback
  shuffleArray rand₂ (correctWord.meaning :: afterPlaceholders.take 3)

/-! ## Concrete fixtures used by witnesses and counterexamples -/

/-- A degenerate random source (always draws index 0). -/
def randZero : Nat → Nat := fun _ => 0

/-- A degenerate timestamp parser. -/
def timeZero : String → Int := fun _ => 0

/-- A built-in middle1 word last reviewed on 2026-10-11. -/
def staleWord : Word :=
  { id := "w1", term := "apple", pronunciation := "", partOfSpeech := "noun",
    meaning := "a fruit", exampleSentence := "An apple a day.",
    exampleSentenceMeaning := "", gradeLevel := "middle1", isCustom := false,
    unit := none }

/-- Stats marking `staleWord` as reviewed on 2026-10-11 (yesterday
relative to the fixture date 2026-10-12). -/
def staleStats : String → Option WordStat := fun id =>
  if id = "w1" then
    some { id := "w1", isMastered := false,
           lastReviewed := some "2026-10-11T09:00:00.000Z",
           quizIncorrectCount := 0 }
  else none

/-- A custom word already in the catalog, used by the save fixtures. -/
def appleCustomWord : Word :=
  { id := "1", term := "apple", pronunciation := "", partOfSpeech := "noun",
    meaning := "red fruit", exampleSentence := "An apple a day.",
    exampleSentenceMeaning := "", gradeLevel := "middle1", isCustom := true,
    unit := none }

/-- An app state whose catalog holds exactly `appleCustomWord`. -/
def appleState : AppState :=
  { allWords := [appleCustomWord], wordStats := fun _ => none,
    learnedWordsTodayCount := 0, totalWordsLearnedOverall := 0,
    streak := { currentStreak := 0, bestStreak := 0, lastLearnedDate := "" },
    xp := 0, level := 1 }

/-- An edit request for `appleCustomWord` keeping the duplicate term
`"apple"` but changing the meaning. -/
def appleEditData : WordData :=
  { id := some "1", term := some "apple", meaning := some "green fruit",
    partOfSpeech := some "noun", exampleSentence := some "An apple a day." }

/-- A create request (no id) whose term case-insensitively collides with
`appleCustomWord`. -/
def appleCreateData : WordData :=
  { term := some "APPLE", meaning := some "green fruit",
    partOfSpeech := some "noun", exampleSentence := some "An apple a day." }

/-- A small catalog word for the quiz fixtures. -/
def mkQuizWord (i : Nat) (m : String) : Word :=
  { id := toString i, term := "t" ++ toString i, pronunciation := "",
    partOfSpeech := "n", meaning := m, exampleSentence := "e",
    exampleSentenceMeaning := "", gradeLevel := "middle1", isCustom := false,
    unit := none }

/-- Four same-grade words with pairwise distinct meanings. -/
def quizCatalog : List Word :=
  [mkQuizWord 1 "m1", mkQuizWord 2 "m2", mkQuizWord 3 "m3", mkQuizWord 4 "m4"]

/-! ## Helper lemmas -/

theorem cons_set_perm {α : Type} {xs : List α} {k : Nat} {b : α}
    (h : xs[k]? = some b) (a : α) : List.Perm (b :: xs.set k a) (a :: xs) := by
  induction xs generalizing k with
  | nil => simp at h
  | cons y ys ih =>
    cases k with
    | zero =>
      have hb : y = b := by simpa using h
      rw [← hb]
      simpa [List.set] using List.Perm.swap a y ys
    | succ k =>
      have hk : ys[k]? = some b := by simpa using h
      have h1 : List.Perm (b :: y :: ys.set k a) (y :: b :: ys.set k a) :=
        List.Perm.swap y b _
      have h2 : List.Perm (y :: b :: ys.set k a) (y :: a :: ys) :=
        List.Perm.cons y (ih hk)
      have h3 : List.Perm (y :: a :: ys) (a :: y :: ys) := List.Perm.swap a y ys
      simpa [List.set] using (h1.trans h2).trans h3

theorem set_set_perm {α : Type} {l : List α} {i j : Nat} {a b : α}
    (hi : l[i]? = some a) (hj : l[j]? = some b) :
    List.Perm ((l.set i b).set j a) l := by
  induction l generalizing i j with
  | nil => simp at hi
  | cons x xs ih =>
    cases i with
    | zero =>
      have hx : x = a := by simpa using hi
      cases j with
      | zero =>
        have hx2 : x = b := by simpa using hj
        rw [← hx]
        simp [List.set, hx2.symm.trans hx]
      | succ k =>
        have hk : xs[k]? = some b := by simpa using hj
        rw [hx]
        simpa [List.set] using cons_set_perm hk a
    | succ m =>
      have hm : xs[m]? = some a := by simpa using hi
      cases j with
      | zero =>
        have hx : x = b := by simpa using hj
        rw [hx]
        simpa [List.set] using cons_set_perm hm b
      | succ k =>
        have hk : xs[k]? = some b := by simpa using hj
        simpa [List.set] using List.Perm.cons x (ih hm hk)

theorem swapList_perm {α : Type} (l : List α) (i j : Nat) :
    List.Perm (swapList l i j) l := by
  unfold swapList
  cases hi : l[i]? with
  | none => simp
  | some a =>
    cases hj : l[j]? with
    | none => simp
    | some b => exact set_set_perm hi hj

theorem fisherYatesAux_perm {α : Type} (rand : Nat → Nat) (n : Nat) (l : List α) :
    List.Perm (fisherYatesAux rand n l) l := by
  induction n generalizing l with
  | zero => simp [fisherYatesAux]
  | succ i ih =>
    exact (ih _).trans (swapList_perm l (i+1) (rand (i+1) % (i+2)))

theorem shuffleArray_perm_aux {α : Type} (rand : Nat → Nat) (l : List α) :
    List.Perm (shuffleArray rand l) l :=
  fisherYatesAux_perm rand (l.length - 1) l

theorem calcXPAux_spec : ∀ (fuel xp cum level : Nat), xp + 1 - level ≤ fuel →
    1 ≤ level → cum = 50 * (level - 1) * level → cum ≤ xp →
    1 ≤ (calcXPAux xp cum level).1 ∧
    (calcXPAux xp cum level).2 =
      50 * ((calcXPAux xp cum level).1 - 1) * (calcXPAux xp cum level).1 ∧
    (calcXPAux xp cum level).2 ≤ xp ∧
    xp < (calcXPAux xp cum level).2 + (calcXPAux xp cum level).1 * 100 := by
  intro fuel
  induction fuel with
  | zero =>
    intro xp cum level hf h1 h2 h3
    have hstop : ¬ (cum + level * 100 ≤ xp) := by omega
    unfold calcXPAux
    rw [if_neg hstop]
    exact ⟨h1, h2, h3, by omega⟩
  | succ n ih =>
    intro xp cum level hf h1 h2 h3
    by_cases hc : cum + level * 100 ≤ xp
    · have hstep : cum + level * 100 = 50 * ((level + 1) - 1) * (level + 1) := by
        obtain ⟨l, rfl⟩ : ∃ l, level = l + 1 := ⟨level - 1, by omega⟩
        simp only [Nat.add_sub_cancel] at h2 ⊢
        rw [h2]; ring
      have hrec := ih xp (cum + level * 100) (level + 1) (by omega) (by omega) hstep hc
      unfold calcXPAux
      rw [if_pos hc]
      exact hrec
    · unfold calcXPAux
      rw [if_neg hc]
      exact ⟨h1, h2, h3, by omega⟩

theorem threshold_step_ident : ∀ k, 1 ≤ k →
    50 * (k - 1) * k + k * 100 = 50 * k * (k + 1) := by
  intro k hk
  obtain ⟨l, rfl⟩ : ∃ l, k = l + 1 := ⟨k - 1, by omega⟩
  simp only [Nat.add_sub_cancel]
  ring

theorem threshold_mono : ∀ a b, 1 ≤ a → a < b →
    50 * a * (a + 1) ≤ 50 * (b - 1) * b := by
  intro a b ha hab
  exact Nat.mul_le_mul (Nat.mul_le_mul (Nat.le_refl 50) (by omega)) (by omega)

/-! ## Claim theorems -/

/-- Claim C7: for every non-negative integer total XP value `x`, the
level computed by `calculateXPLevel` (and stored by `addXp`) is the
unique `n ≥ 1` with `sum_{k=1}^{n-1} 100k = 50*(n-1)*n ≤ x <
50*n*(n+1) = sum_{k=1}^{n} 100k`; equivalently, advancing from level `L`
to `L+1` requires exactly `100*L` additional XP. -/
theorem calculateXPLevel_unique_level (x : Nat) :
    1 ≤ (calculateXPLevel x).1 ∧
    50 * ((calculateXPLevel x).1 - 1) * (calculateXPLevel x).1 ≤ x ∧
    x < 50 * (calculateXPLevel x).1 * ((calculateXPLevel x).1 + 1) ∧
    (∀ m, 1 ≤ m → 50 * (m - 1) * m ≤ x → x < 50 * m * (m + 1) →
      m = (calculateXPLevel x).1) ∧
    ∀ (s : AppState) (amount : Nat),
      (addXp s amount).level = (calculateXPLevel (s.xp + amount)).1 := by
  have hspec := calcXPAux_spec (x + 1) x 0 1 (by omega) (by omega) (by simp) (by omega)
  have hfst : (calculateXPLevel x).1 = (calcXPAux x 0 1).1 := rfl
  obtain ⟨h1, h2, h3, h4⟩ := hspec
  rw [hfst]
  have hupper : x < 50 * (calcXPAux x 0 1).1 * ((calcXPAux x 0 1).1 + 1) := by
    have := threshold_step_ident (calcXPAux x 0 1).1 h1
    omega
  refine ⟨h1, by omega, hupper, ?_, fun s amount => rfl⟩
  intro m hm hml hmu
  rcases Nat.lt_trichotomy m (calcXPAux x 0 1).1 with hlt | heq | hgt
  · exfalso
    have := threshold_mono m (calcXPAux x 0 1).1 hm hlt
    omega
  · exact heq
  · exfalso
    have := threshold_mono (calcXPAux x 0 1).1 m h1 hgt
    omega

/-- Witness for C7: at total XP 250 the computed level is within the
level-2 window `[100, 300)`, and 2 is that unique level. -/
theorem calculateXPLevel_unique_level_witness :
    1 ≤ (calculateXPLevel 250).1 ∧
    50 * ((calculateXPLevel 250).1 - 1) * (calculateXPLevel 250).1 ≤ 250 ∧
    250 < 50 * (calculateXPLevel 250).1 * ((calculateXPLevel 250).1 + 1) ∧
    2 = (calculateXPLevel 250).1 := by
  have h := calculateXPLevel_unique_level 250
  exact ⟨h.1, h.2.1, h.2.2.1, h.2.2.2.1 2 (by decide) (by decide) (by decide)⟩

/-- Claim C10: `shuffleArray` is a permutation: its output contains
exactly the elements of the input with the same multiplicities, for every
input list and every random source; the input itself is never mutated
(the source copies the array before swapping, and the embedding is pure). -/
theorem shuffleArray_permutation {α : Type} (rand : Nat → Nat) (l : List α) :
    List.Perm (shuffleArray rand l) l :=
  shuffleArray_perm_aux rand l

theorem bestStreak_le_applyStep (s : AppState) (step : ProgressStep) :
    s.streak.bestStreak ≤ (applyProgressStep s step).streak.bestStreak := by
  cases step with
  | learn today yesterday now wordId isQR =>
    simp only [applyProgressStep, onWordLearned]
    split
    · simp only [updateStreakOnLearn, addXp]
      exact Nat.le_max_left _ _
    · split
      · simp [addXp]
      · simp
  | loadCorrection today yesterday =>
    simp only [applyProgressStep, loadStreakCorrection]
    split
    · split <;> simp
    · simp

/-- Claim C4: `bestStreak` is monotone — after any single
`onWordLearned` call or load-time streak correction, and hence after any
sequence of such steps, `bestStreak` is at least its previous value. -/
theorem bestStreak_monotone (s : AppState) (steps : List ProgressStep) :
    (∀ step : ProgressStep,
      s.streak.bestStreak ≤ (applyProgressStep s step).streak.bestStreak) ∧
    s.streak.bestStreak ≤ (applyProgressSteps s steps).streak.bestStreak := by
  refine ⟨fun step => bestStreak_le_applyStep s step, ?_⟩
  induction steps generalizing s with
  | nil => simp [applyProgressSteps]
  | cons st rest ih =>
    exact le_trans (bestStreak_le_applyStep s st) (ih (applyProgressStep s st))

/-- Claim C8: `onWordLearned(wordId, true)` (quick review) sets that
word's `lastReviewed` to the current timestamp and awards exactly 1 XP,
leaving other words' stats, `learnedWordsToday`,
`totalWordsLearnedOverall` and every streak field unchanged. -/
theorem onWordLearned_quickReview_effect (today yesterday now : String)
    (s : AppState) (wordId : String) :
    (onWordLearned today yesterday now s wordId true).wordStats wordId =
      some { (s.wordStats wordId).getD (getDefaultWordStat wordId) with
             lastReviewed := some now, id := wordId } ∧
    (∀ id, id ≠ wordId →
      (onWordLearned today yesterday now s wordId true).wordStats id =
        s.wordStats id) ∧
    (onWordLearned today yesterday now s wordId true).xp = s.xp + 1 ∧
    (onWordLearned today yesterday now s wordId true).learnedWordsTodayCount =
      s.learnedWordsTodayCount ∧
    (onWordLearned today yesterday now s wordId true).totalWordsLearnedOverall =
      s.totalWordsLearnedOverall ∧
    (onWordLearned today yesterday now s wordId true).streak = s.streak := by
  simp only [onWordLearned, Bool.not_true, Bool.and_false, Bool.false_eq_true,
    if_false, if_true, addXp]
  refine ⟨?_, ?_, by trivial, by trivial, by trivial, by trivial⟩
  · simp [updateWordStatLastReviewed, setStat]
  · intro id hid
    simp [updateWordStatLastReviewed, setStat, hid]

/-- Witness for C8: the quick-review effect evaluated on the fixture
state at word `"w1"`, instantiated at the distinct id `"other"`. -/
theorem onWordLearned_quickReview_effect_witness :
    (onWordLearned "2026-10-12" "2026-10-11" "2026-10-12T08:00:00.000Z"
        { appleState with wordStats := staleStats } "w1" true).wordStats "w1" =
      some { (staleStats "w1").getD (getDefaultWordStat "w1") with
             lastReviewed := some "2026-10-12T08:00:00.000Z", id := "w1" } ∧
    (onWordLearned "2026-10-12" "2026-10-11" "2026-10-12T08:00:00.000Z"
        { appleState with wordStats := staleStats } "w1" true).wordStats "other" =
      staleStats "other" ∧
    (onWordLearned "2026-10-12" "2026-10-11" "2026-10-12T08:00:00.000Z"
        { appleState with wordStats := staleStats } "w1" true).xp =
      appleState.xp + 1 := by
  have h := onWordLearned_quickReview_effect "2026-10-12" "2026-10-11"
    "2026-10-12T08:00:00.000Z" { appleState with wordStats := staleStats } "w1"
  exact ⟨h.1, h.2.1 "other" (by decide), h.2.2.1⟩

theorem onWordLearned_wordStats_eq (today yesterday now : String) (s : AppState)
    (wordId : String) (iq : Bool) :
    (onWordLearned today yesterday now s wordId iq).wordStats =
      updateWordStatLastReviewed s.wordStats wordId now := by
  simp only [onWordLearned]
  split
  · simp [addXp]
  · split <;> simp [addXp]

theorem onWordLearned_count_le (today yesterday now : String) (s : AppState)
    (wordId : String) (iq : Bool) :
    (onWordLearned today yesterday now s wordId iq).learnedWordsTodayCount ≤
      s.learnedWordsTodayCount + 1 := by
  simp only [onWordLearned]
  split
  · simp [addXp]
  · split <;> simp [addXp]

/-- Claim C3: calling `onWordLearned(id, false)` twice on the same
calendar day increments `learnedWordsToday` at most once in total; the
second call only refreshes the word's `lastReviewed` timestamp and
changes no daily counter, no overall counter, and no streak field.
`h2` records that the first call's timestamp belongs to `today`, which
is how the two calls land on the same calendar day. -/
theorem onWordLearned_no_duplicate_daily (today yesterday now₁ now₂ : String)
    (s : AppState) (wordId : String) (h1 : now₁ ≠ "")
    (h2 : dayPart now₁ = today) :
    onWordLearned today yesterday now₂
        (onWordLearned today yesterday now₁ s wordId false) wordId false =
      { onWordLearned today yesterday now₁ s wordId false with
        wordStats := updateWordStatLastReviewed
          (onWordLearned today yesterday now₁ s wordId false).wordStats
          wordId now₂ } ∧
    (onWordLearned today yesterday now₂
        (onWordLearned today yesterday now₁ s wordId false) wordId
        false).streak =
      (onWordLearned today yesterday now₁ s wordId false).streak ∧
    (onWordLearned today yesterday now₂
        (onWordLearned today yesterday now₁ s wordId false) wordId
        false).totalWordsLearnedOverall =
      (onWordLearned today yesterday now₁ s wordId false).totalWordsLearnedOverall ∧
    (onWordLearned today yesterday now₂
        (onWordLearned today yesterday now₁ s wordId false) wordId
        false).xp =
      (onWordLearned today yesterday now₁ s wordId false).xp ∧
    (onWordLearned today yesterday now₁ s wordId
        false).learnedWordsTodayCount ≤ s.learnedWordsTodayCount + 1 ∧
    (onWordLearned today yesterday now₂
        (onWordLearned today yesterday now₁ s wordId false) wordId
        false).learnedWordsTodayCount ≤ s.learnedWordsTodayCount + 1 := by
  set s1 := onWordLearned today yesterday now₁ s wordId false with hs1
  have hget : getWordStat s1.wordStats wordId =
      { (s.wordStats wordId).getD (getDefaultWordStat wordId) with
        lastReviewed := some now₁, id := wordId } := by
    rw [hs1, onWordLearned_wordStats_eq]
    simp [getWordStat, updateWordStatLastReviewed, setStat]
  have hcond : (!(strTruthy (getWordStat s1.wordStats wordId).lastReviewed) ||
      dayPart ((getWordStat s1.wordStats wordId).lastReviewed.getD "")
        != today) = false := by
    rw [hget]
    simp [strTruthy, h1, h2]
  have hmain : onWordLearned today yesterday now₂ s1 wordId false =
      { s1 with wordStats :=
          updateWordStatLastReviewed s1.wordStats wordId now₂ } := by
    conv_lhs => rw [onWordLearned]
    rw [hcond]
    simp
  refine ⟨hmain, ?_, ?_, ?_,
    onWordLearned_count_le today yesterday now₁ s wordId false, ?_⟩ <;>
    rw [hmain]
  exact onWordLearned_count_le today yesterday now₁ s wordId false

/-- Witness for C3: two same-day `onWordLearned` calls on the fixture
state increment `learnedWordsToday` by at most one. -/
theorem onWordLearned_no_duplicate_daily_witness :
    ("2026-10-12T08:00:00.000Z" : String) ≠ "" ∧
    dayPart "2026-10-12T08:00:00.000Z" = "2026-10-12" ∧
    (onWordLearned "2026-10-12" "2026-10-11" "2026-10-12T09:00:00.000Z"
        (onWordLearned "2026-10-12" "2026-10-11" "2026-10-12T08:00:00.000Z"
          appleState "w1" false) "w1" false).learnedWordsTodayCount ≤
      appleState.learnedWordsTodayCount + 1 :=
  ⟨by decide, by decide,
    (onWordLearned_no_duplicate_daily "2026-10-12" "2026-10-11"
      "2026-10-12T08:00:00.000Z" "2026-10-12T09:00:00.000Z" appleState "w1"
      (by decide) (by decide)).2.2.2.2.2⟩

/-- Claim C1: in DailyNew mode every word returned by `selectWords` has
the requested grade, is not mastered (missing stat records count as the
default stat), and has `lastReviewed` either null or with a calendar date
different from today's; the returned list has length at most `count`.
The hypothesis `today ≠ ""` records that `getTodayDateString()` always
produces a non-empty calendar date. -/
theorem selectWords_dailyNew_sound (rand : Nat → Nat) (getTime : String → Int)
    (words : List Word) (stats : String → Option WordStat)
    (grade today : String) (count : Nat) (htoday : today ≠ "") :
    (∀ w ∈ selectWords rand getTime words stats grade today count false,
      w.gradeLevel = grade ∧
      (getWordStat stats w.id).isMastered = false ∧
      ((getWordStat stats w.id).lastReviewed = none ∨
        ∀ t, (getWordStat stats w.id).lastReviewed = some t →
          dayPart t ≠ today)) ∧
    (selectWords rand getTime words stats grade today count false).length ≤
      count := by
  constructor
  · intro w hw
    simp only [selectWords, Bool.false_eq_true, reduceIte] at hw
    have h1 := List.take_subset count _ hw
    have h2 := (shuffleArray_perm_aux rand _).mem_iff.mp h1
    have h3 := (List.mergeSort_perm _ _).mem_iff.mp h2
    rw [List.mem_filter] at h3
    obtain ⟨hbase, hmode⟩ := h3
    rw [List.mem_filter] at hbase
    obtain ⟨hmem, hgm⟩ := hbase
    rw [Bool.and_eq_true] at hgm
    obtain ⟨hgrade, hmast⟩ := hgm
    refine ⟨by simpa using hgrade, by simpa using hmast, ?_⟩
    cases hlr : (getWordStat stats w.id).lastReviewed with
    | none => exact Or.inl rfl
    | some t =>
      refine Or.inr ?_
      intro t2 ht2
      injection ht2 with ht2
      subst ht2
      rw [hlr] at hmode
      by_cases ht : t = ""
      · subst ht
        simpa [show dayPart "" = "" from rfl] using Ne.symm htoday
      · simpa [strTruthy, ht] using hmode
  · simp only [selectWords, Bool.false_eq_true, reduceIte]
    rw [List.length_take]
    exact Nat.min_le_left _ _

unseal List.merge List.mergeSort in
/-- Witness for C1: on a one-word catalog whose word was reviewed
yesterday, DailyNew selection returns the word and the soundness
properties hold at it. -/
theorem selectWords_dailyNew_sound_witness :
    ("2026-10-12" : String) ≠ "" ∧
    staleWord ∈ selectWords randZero timeZero [staleWord] staleStats
      "middle1" "2026-10-12" 10 false ∧
    (staleWord.gradeLevel = "middle1" ∧
      (getWordStat staleStats staleWord.id).isMastered = false ∧
      ((getWordStat staleStats staleWord.id).lastReviewed = none ∨
        ∀ t, (getWordStat staleStats staleWord.id).lastReviewed = some t →
          dayPart t ≠ "2026-10-12")) ∧
    (selectWords randZero timeZero [staleWord] staleStats "middle1"
      "2026-10-12" 10 false).length ≤ 10 := by
  have h := selectWords_dailyNew_sound randZero timeZero [staleWord]
    staleStats "middle1" "2026-10-12" 10 (by decide)
  exact ⟨by decide, by decide, h.1 staleWord (by decide), h.2⟩

unseal List.merge List.mergeSort in
/-- Counterexample to C2: on a fixed snapshot, a word reviewed yesterday
(non-null `lastReviewed` whose date differs from today's) is returned by
`selectWords` in DailyNew mode and in QuickReview mode against the very
same catalog, stats, grade and date — the two eligible sets are not
disjoint. -/
theorem quickReview_dailyNew_not_disjoint_cex :
    staleWord ∈ selectWords randZero timeZero [staleWord] staleStats
      "middle1" "2026-10-12" 10 false ∧
    staleWord ∈ selectWords randZero timeZero [staleWord] staleStats
      "middle1" "2026-10-12" 10 true := by
  decide

/-- Claim C2 (amended): the QuickReview and DailyNew eligible sets are
not disjoint; instead they are nested — every word returned by
`selectWords` in QuickReview mode (reviewed on a prior day) also
satisfies the DailyNew eligibility conditions (requested grade, not
mastered, `lastReviewed` null or not today) against the same snapshot.
The sets are disjoint only when the QuickReview set is empty. -/
theorem selectWords_quickReview_subset_dailyNew (rand : Nat → Nat)
    (getTime : String → Int) (words : List Word)
    (stats : String → Option WordStat) (grade today : String) (count : Nat) :
    ∀ w ∈ selectWords rand getTime words stats grade today count true,
      w.gradeLevel = grade ∧
      (getWordStat stats w.id).isMastered = false ∧
      ∃ t, (getWordStat stats w.id).lastReviewed = some t ∧ t ≠ "" ∧
        dayPart t ≠ today := by
  intro w hw
  simp only [selectWords, reduceIte] at hw
  have h1 := List.take_subset count _ hw
  have h2 := (shuffleArray_perm_aux rand _).mem_iff.mp h1
  have h3 := (List.mergeSort_perm _ _).mem_iff.mp h2
  rw [List.mem_filter] at h3
  obtain ⟨hbase, hmode⟩ := h3
  rw [List.mem_filter] at hbase
  obtain ⟨hmem, hgm⟩ := hbase
  rw [Bool.and_eq_true] at hgm
  obtain ⟨hgrade, hmast⟩ := hgm
  rw [Bool.and_eq_true] at hmode
  obtain ⟨hstr, hday⟩ := hmode
  refine ⟨by simpa using hgrade, by simpa using hmast, ?_⟩
  cases hlr : (getWordStat stats w.id).lastReviewed with
  | none => rw [hlr] at hstr; simp [strTruthy] at hstr
  | some t =>
    rw [hlr] at hstr hday
    refine ⟨t, rfl, ?_, ?_⟩
    · simpa [strTruthy] using hstr
    · simpa using hday

unseal List.merge List.mergeSort in
/-- Witness for the amended C2: the stale word returned by QuickReview
selection on the fixture snapshot indeed satisfies the DailyNew
eligibility conditions. -/
theorem selectWords_quickReview_subset_dailyNew_witness :
    staleWord ∈ selectWords randZero timeZero [staleWord] staleStats
      "middle1" "2026-10-12" 10 true ∧
    (staleWord.gradeLevel = "middle1" ∧
      (getWordStat staleStats staleWord.id).isMastered = false ∧
      ∃ t, (getWordStat staleStats staleWord.id).lastReviewed = some t ∧
        t ≠ "" ∧ dayPart t ≠ "2026-10-12") :=
  ⟨by decide,
    selectWords_quickReview_subset_dailyNew randZero timeZero [staleWord]
      staleStats "middle1" "2026-10-12" 10 staleWord (by decide)⟩

/-- Counterexample to C5: editing an existing custom word (`id` present)
while keeping the term `"apple"` — which case-insensitively matches an
existing catalog word, namely itself — returns `true` and modifies the
catalog, because the duplicate-term check only guards the create path. -/
theorem saveCustomWord_dup_term_cex :
    (onSaveCustomWord "999" "middle1" appleState appleEditData none none).1 =
      true ∧
    (onSaveCustomWord "999" "middle1" appleState
        appleEditData none none).2.allWords ≠ appleState.allWords ∧
    ∃ w ∈ appleState.allWords,
      jsToLower w.term = jsToLower (jsTrim (appleEditData.term.getD "")) := by
  decide

/-- Claim C5 (amended): on the create path (no id on the word data),
whenever `saveCustomWord` is called with a term that case-insensitively
matches the term of any existing word in the catalog (custom or
built-in), it returns false and the state — in particular the catalog —
is left unchanged. (The update path, which carries an id, bypasses the
duplicate-term check.) -/
theorem saveCustomWord_create_dup_rejected (freshId defaultGrade : String)
    (s : AppState) (wordData : WordData) (gradeLevelForNew : Option String)
    (unitNumber : Option Nat) (hid : wordDataIdTruthy wordData = false)
    (hdup : ∃ w ∈ s.allWords,
      jsToLower w.term = jsToLower (jsTrim (wordData.term.getD ""))) :
    (onSaveCustomWord freshId defaultGrade s wordData gradeLevelForNew
      unitNumber).1 = false ∧
    (onSaveCustomWord freshId defaultGrade s wordData gradeLevelForNew
      unitNumber).2 = s := by
  simp only [onSaveCustomWord]
  split
  · exact ⟨rfl, rfl⟩
  · rw [hid]
    simp only [Bool.false_eq_true, if_false, saveNewWord]
    cases hfind : s.allWords.find?
        (fun w => jsToLower w.term == jsToLower (jsTrim (wordData.term.getD ""))) with
    | none =>
      exfalso
      have hsome : (s.allWords.find?
          (fun w => jsToLower w.term ==
            jsToLower (jsTrim (wordData.term.getD "")))).isSome := by
        rw [List.find?_isSome]
        obtain ⟨w, hw, hww⟩ := hdup
        exact ⟨w, hw, by simpa using hww⟩
      rw [hfind] at hsome
      simp at hsome
    | some wf =>
      exact ⟨rfl, rfl⟩

/-- Witness for the amended C5: creating `"APPLE"` (no id) against a
catalog already holding `"apple"` is rejected and leaves the state
untouched. -/
theorem saveCustomWord_create_dup_rejected_witness :
    wordDataIdTruthy appleCreateData = false ∧
    (∃ w ∈ appleState.allWords,
      jsToLower w.term = jsToLower (jsTrim (appleCreateData.term.getD ""))) ∧
    (onSaveCustomWord "999" "middle1" appleState appleCreateData none
      none).1 = false ∧
    (onSaveCustomWord "999" "middle1" appleState appleCreateData none
      none).2 = appleState := by
  have h := saveCustomWord_create_dup_rejected "999" "middle1" appleState
    appleCreateData none none (by decide) ⟨appleCustomWord, by decide, by decide⟩
  exact ⟨by decide, ⟨appleCustomWord, by decide, by decide⟩, h.1, h.2⟩

theorem mem_jsDedup_aux : ∀ (n : Nat) (l : List String), l.length ≤ n →
    ∀ x, (x ∈ jsDedup l ↔ x ∈ l) := by
  intro n
  induction n with
  | zero =>
    intro l hl x
    have hnil : l = [] := List.length_eq_zero.mp (by omega)
    subst hnil
    rw [jsDedup]
  | succ n ih =>
    intro l hl x
    cases l with
    | nil => rw [jsDedup]
    | cons a as =>
      rw [jsDedup]
      have hlen : (as.filter fun y => y != a).length ≤ n :=
        le_trans (List.length_filter_le _ as) (by simpa using hl)
      constructor
      · intro hx
        rcases List.mem_cons.mp hx with h | h
        · exact List.mem_cons.mpr (Or.inl h)
        · have hmem := (ih _ hlen x).mp h
          exact List.mem_cons.mpr (Or.inr (List.mem_filter.mp hmem).1)
      · intro hx
        rcases List.mem_cons.mp hx with h | h
        · exact List.mem_cons.mpr (Or.inl h)
        · by_cases hxa : x = a
          · exact List.mem_cons.mpr (Or.inl hxa)
          · refine List.mem_cons.mpr (Or.inr ?_)
            exact (ih _ hlen x).mpr (List.mem_filter.mpr ⟨h, by simpa using hxa⟩)

theorem mem_jsDedup (l : List String) (x : String) : x ∈ jsDedup l ↔ x ∈ l :=
  mem_jsDedup_aux l.length l (le_refl _) x

theorem jsDedup_nodup_aux : ∀ (n : Nat) (l : List String), l.length ≤ n →
    (jsDedup l).Nodup := by
  intro n
  induction n with
  | zero =>
    intro l hl
    have hnil : l = [] := List.length_eq_zero.mp (by omega)
    subst hnil
    rw [jsDedup]
    exact List.nodup_nil
  | succ n ih =>
    intro l hl
    cases l with
    | nil =>
      rw [jsDedup]
      exact List.nodup_nil
    | cons a as =>
      rw [jsDedup]
      have hlen : (as.filter fun y => y != a).length ≤ n :=
        le_trans (List.length_filter_le _ as) (by simpa using hl)
      refine List.nodup_cons.mpr ⟨?_, ih _ hlen⟩
      intro ha
      have hmem := (mem_jsDedup_aux n _ hlen a).mp ha
      have := (List.mem_filter.mp hmem).2
      simp at this

theorem jsDedup_nodup (l : List String) : (jsDedup l).Nodup :=
  jsDedup_nodup_aux l.length l (le_refl _)

theorem jsDedup_length_eq_card (l : List String) :
    (jsDedup l).length = l.toFinset.card := by
  have h1 : (jsDedup l).toFinset = l.toFinset := by
    ext x
    simp [List.mem_toFinset, mem_jsDedup]
  calc (jsDedup l).length = (jsDedup l).toFinset.card :=
        (List.toFinset_card_of_nodup (jsDedup_nodup l)).symm
    _ = l.toFinset.card := by rw [h1]

set_option maxHeartbeats 1000000 in
theorem fallbackLoop_invariant (rands : Nat → Nat → Nat) (gw : List Word)
    (c : Word) : ∀ (fuel iter : Nat) (opts : List String),
    c.meaning ∉ opts → opts.length ≤ 3 →
    c.meaning ∉ fallbackLoop rands gw c fuel iter opts ∧
    (fallbackLoop rands gw c fuel iter opts).length ≤ 3 := by
  intro fuel
  induction fuel with
  | zero => intro iter opts h1 h2; exact ⟨h1, h2⟩
  | succ n ih =>
    intro iter opts h1 h2
    rw [fallbackLoop]
    simp only []
    split
    case isTrue hcond =>
      cases hh : (shuffleArray (rands iter) (gw.filter fun w =>
          w.id != c.id && !(opts.contains w.meaning) &&
            w.meaning != c.meaning)).head? with
      | none => exact ⟨h1, h2⟩
      | some w =>
        simp only []
        split
        case isTrue hpush =>
          have hwmem : w ∈ gw.filter fun w =>
              w.id != c.id && !(opts.contains w.meaning) &&
                w.meaning != c.meaning := by
            have hhd := List.mem_of_mem_head? (l := shuffleArray (rands iter)
              (gw.filter fun w => w.id != c.id && !(opts.contains w.meaning) &&
                w.meaning != c.meaning)) (Option.mem_def.mpr hh)
            exact (shuffleArray_perm_aux _ _).mem_iff.mp hhd
          have hfilt := (List.mem_filter.mp hwmem).2
          have hwne : w.meaning ≠ c.meaning := by
            rw [Bool.and_eq_true] at hfilt
            simpa using hfilt.2
          have hlt : opts.length < 3 := by
            rw [Bool.and_eq_true] at hcond
            simpa using hcond.1
          apply ih (iter + 1)
          · intro hcm
            rcases List.mem_append.mp hcm with h | h
            · exact h1 h
            · have hcw : c.meaning = w.meaning := by simpa using h
              exact hwne hcw.symm
          · rw [List.length_append]
            simp
            omega
        case isFalse hpush => exact ⟨h1, h2⟩
    case isFalse hcond => exact ⟨h1, h2⟩

theorem fallbackLoop_of_three (rands : Nat → Nat → Nat) (gw : List Word)
    (c : Word) (fuel iter : Nat) (opts : List String) (h : opts.length = 3) :
    fallbackLoop rands gw c fuel iter opts = opts := by
  cases fuel with
  | zero => rfl
  | succ n =>
    rw [fallbackLoop]
    simp [h]

theorem placeholderLoop_invariant (c : String) : ∀ (ps opts : List String),
    c ∉ opts → opts.length ≤ 3 →
    c ∉ placeholderLoop c ps opts ∧ (placeholderLoop c ps opts).length ≤ 3 := by
  intro ps
  induction ps with
  | nil => intro opts h1 h2; exact ⟨h1, h2⟩
  | cons p rest ih =>
    intro opts h1 h2
    rw [placeholderLoop]
    split
    case isTrue hlen =>
      split
      case isTrue hcondp =>
        apply ih
        · intro hc
          rcases List.mem_append.mp hc with h | h
          · exact h1 h
          · have hcp : c = p := by simpa using h
            have hpc : p ≠ c := by
              rw [Bool.and_eq_true] at hcondp
              simpa using hcondp.2
            exact hpc hcp.symm
        · rw [List.length_append]
          simp
          omega
      case isFalse hcondp => exact ih opts h1 h2
    case isFalse hlen => exact ⟨h1, h2⟩

theorem placeholderLoop_of_three (c : String) (ps opts : List String)
    (h : opts.length = 3) : placeholderLoop c ps opts = opts := by
  cases ps with
  | nil => rfl
  | cons p rest =>
    rw [placeholderLoop]
    rw [if_neg (by omega)]

theorem optionsAssembly_spec (rand₂ : Nat → Nat) (u : List String)
    (c : String) (hc : c ∉ u) (hu : u.length ≤ 3) :
    (shuffleArray rand₂ (c :: u.take 3)).count c = 1 ∧
    1 ≤ (shuffleArray rand₂ (c :: u.take 3)).length ∧
    (shuffleArray rand₂ (c :: u.take 3)).length ≤ 4 := by
  have hperm := shuffleArray_perm_aux rand₂ (c :: u.take 3)
  have htl : u.take 3 = u := List.take_of_length_le hu
  refine ⟨?_, ?_, ?_⟩
  · rw [hperm.count_eq, htl, List.count_cons_self,
      List.count_eq_zero.mpr hc]
  · rw [hperm.length_eq]
    simp
  · rw [hperm.length_eq, htl]
    simp
    omega

/-- Claim C9: for every catalog and grade — including grades with fewer
than 4 words or fewer than 4 distinct meanings — the option list
produced by distractor generation always contains the correct word's
meaning exactly once, and its total length is between 1 and 4 inclusive. -/
theorem generateOptions_correct_meaning_once (rand₁ rand₂ : Nat → Nat)
    (rands : Nat → Nat → Nat) (words : List Word) (grade : String)
    (correctWord : Word) :
    (generateMultipleChoiceOptions rand₁ rand₂ rands words grade
      correctWord).count correctWord.meaning = 1 ∧
    1 ≤ (generateMultipleChoiceOptions rand₁ rand₂ rands words grade
      correctWord).length ∧
    (generateMultipleChoiceOptions rand₁ rand₂ rands words grade
      correctWord).length ≤ 4 := by
  have hstage1ne : correctWord.meaning ∉
      (jsDedup (shuffleArray rand₁
        ((((words.filter fun w => w.gradeLevel == grade).filter fun w =>
          w.id != correctWord.id).map Word.meaning).filter fun m =>
          m != correctWord.meaning))).take 3 := by
    intro hmem
    have h1 := List.take_subset 3 _ hmem
    have h2 := (mem_jsDedup _ _).mp h1
    have h3 := (shuffleArray_perm_aux rand₁ _).mem_iff.mp h2
    have h4 := (List.mem_filter.mp h3).2
    simp at h4
  have hstage1len : ((jsDedup (shuffleArray rand₁
      ((((words.filter fun w => w.gradeLevel == grade).filter fun w =>
        w.id != correctWord.id).map Word.meaning).filter fun m =>
        m != correctWord.meaning))).take 3).length ≤ 3 := by
    rw [List.length_take]
    exact Nat.min_le_left _ _
  have hfb := fallbackLoop_invariant rands
    (words.filter fun w => w.gradeLevel == grade) correctWord 4 0 _
    hstage1ne hstage1len
  have hpl := placeholderLoop_invariant correctWord.meaning quizPlaceholders
    _ hfb.1 hfb.2
  have hfinal := optionsAssembly_spec rand₂ _ correctWord.meaning hpl.1 hpl.2
  simpa only [generateMultipleChoiceOptions] using hfinal

theorem distractor_pool_card (words : List Word) (grade : String) (c : Word)
    (hmem : c ∈ words.filter fun w => w.gradeLevel == grade)
    (hids : ((words.filter fun w => w.gradeLevel == grade).map Word.id).Nodup)
    (hdist : 4 ≤ ((words.filter fun w => w.gradeLevel == grade).map
      Word.meaning).dedup.length) :
    3 ≤ ((((words.filter fun w => w.gradeLevel == grade).filter fun w =>
      w.id != c.id).map Word.meaning).filter fun m =>
      m != c.meaning).toFinset.card := by
  have hsub : ((words.filter fun w => w.gradeLevel == grade).map
      Word.meaning).toFinset.erase c.meaning ⊆
      ((((words.filter fun w => w.gradeLevel == grade).filter fun w =>
        w.id != c.id).map Word.meaning).filter fun m =>
        m != c.meaning).toFinset := by
    intro x hx
    rw [Finset.mem_erase] at hx
    obtain ⟨hxne, hxM⟩ := hx
    rw [List.mem_toFinset] at hxM
    obtain ⟨w, hwgw, hwm⟩ := List.mem_map.mp hxM
    rw [List.mem_toFinset]
    have hwid : w.id ≠ c.id := by
      intro heq
      have hwc : w = c := List.inj_on_of_nodup_map hids hwgw hmem heq
      exact hxne (by rw [← hwm, hwc])
    refine List.mem_filter.mpr ⟨?_, by simpa using hxne⟩
    exact List.mem_map.mpr ⟨w, List.mem_filter.mpr ⟨hwgw, by simpa using hwid⟩, hwm⟩
  have hM4 : 4 ≤ ((words.filter fun w => w.gradeLevel == grade).map
      Word.meaning).toFinset.card := by
    rw [List.card_toFinset]
    exact hdist
  have hcard := Finset.card_le_card hsub
  by_cases hcm : c.meaning ∈ ((words.filter fun w => w.gradeLevel == grade).map
      Word.meaning).toFinset
  · have := Finset.card_erase_add_one hcm
    omega
  · rw [Finset.erase_eq_of_not_mem hcm] at hcard
    omega

/-- Claim C6: when the requested grade's catalog holds at least 4 words
with pairwise distinct meanings (and, per the data-model invariant,
pairwise distinct ids), the option list for every correct word of that
grade has exactly 4 entries, contains the correct meaning exactly once,
and has no duplicate strings. -/
theorem generateOptions_four_distinct (rand₁ rand₂ : Nat → Nat)
    (rands : Nat → Nat → Nat) (words : List Word) (grade : String)
    (correctWord : Word)
    (hmem : correctWord ∈ words.filter fun w => w.gradeLevel == grade)
    (hids : ((words.filter fun w => w.gradeLevel == grade).map Word.id).Nodup)
    (hdist : 4 ≤ ((words.filter fun w => w.gradeLevel == grade).map
      Word.meaning).dedup.length) :
    (generateMultipleChoiceOptions rand₁ rand₂ rands words grade
      correctWord).length = 4 ∧
    (generateMultipleChoiceOptions rand₁ rand₂ rands words grade
      correctWord).count correctWord.meaning = 1 ∧
    (generateMultipleChoiceOptions rand₁ rand₂ rands words grade
      correctWord).Nodup := by
  have hcard3 : 3 ≤ (jsDedup (shuffleArray rand₁
      ((((words.filter fun w => w.gradeLevel == grade).filter fun w =>
        w.id != correctWord.id).map Word.meaning).filter fun m =>
        m != correctWord.meaning))).length := by
    rw [jsDedup_length_eq_card,
      List.toFinset_eq_of_perm _ _ (shuffleArray_perm_aux rand₁ _)]
    exact distractor_pool_card words grade correctWord hmem hids hdist
  have hu1len : ((jsDedup (shuffleArray rand₁
      ((((words.filter fun w => w.gradeLevel == grade).filter fun w =>
        w.id != correctWord.id).map Word.meaning).filter fun m =>
        m != correctWord.meaning))).take 3).length = 3 := by
    rw [List.length_take]
    omega
  have hu1ne : correctWord.meaning ∉
      (jsDedup (shuffleArray rand₁
        ((((words.filter fun w => w.gradeLevel == grade).filter fun w =>
          w.id != correctWord.id).map Word.meaning).filter fun m =>
          m != correctWord.meaning))).take 3 := by
    intro hmem2
    have h1 := List.take_subset 3 _ hmem2
    have h2 := (mem_jsDedup _ _).mp h1
    have h3 := (shuffleArray_perm_aux rand₁ _).mem_iff.mp h2
    have h4 := (List.mem_filter.mp h3).2
    simp at h4
  have hu1nodup : ((jsDedup (shuffleArray rand₁
      ((((words.filter fun w => w.gradeLevel == grade).filter fun w =>
        w.id != correctWord.id).map Word.meaning).filter fun m =>
        m != correctWord.meaning))).take 3).Nodup :=
    (jsDedup_nodup _).sublist (List.take_sublist 3 _)
  simp only [generateMultipleChoiceOptions]
  rw [fallbackLoop_of_three _ _ _ _ _ _ hu1len,
    placeholderLoop_of_three _ _ _ hu1len,
    List.take_of_length_le (le_of_eq hu1len)]
  have hperm := shuffleArray_perm_aux rand₂ (correctWord.meaning ::
    (jsDedup (shuffleArray rand₁
      ((((words.filter fun w => w.gradeLevel == grade).filter fun w =>
        w.id != correctWord.id).map Word.meaning).filter fun m =>
        m != correctWord.meaning))).take 3)
  refine ⟨?_, ?_, ?_⟩
  · rw [hperm.length_eq, List.length_cons, hu1len]
  · rw [hperm.count_eq, List.count_cons_self, List.count_eq_zero.mpr hu1ne]
  · rw [hperm.nodup_iff]
    exact List.nodup_cons.mpr ⟨hu1ne, hu1nodup⟩

/-- Witness for C6: on a four-word catalog with distinct meanings, the
options for the first word number exactly 4. -/
theorem generateOptions_four_distinct_witness :
    mkQuizWord 1 "m1" ∈ quizCatalog.filter (fun w => w.gradeLevel == "middle1") ∧
    ((quizCatalog.filter fun w => w.gradeLevel == "middle1").map Word.id).Nodup ∧
    4 ≤ ((quizCatalog.filter fun w => w.gradeLevel == "middle1").map
      Word.meaning).dedup.length ∧
    (generateMultipleChoiceOptions randZero randZero (fun _ => randZero)
      quizCatalog "middle1" (mkQuizWord 1 "m1")).length = 4 := by
  have h := generateOptions_four_distinct randZero randZero (fun _ => randZero)
    quizCatalog "middle1" (mkQuizWord 1 "m1") (by decide) (by decide) (by decide)
  exact ⟨by decide, by decide, by decide, h.1⟩

end VocabApp
